import Mathlib

/-!
Shallow embedding of the `tracerr` error-trace library
(`src/lib.rs`, `src/trace.rs`) and proofs of its specified properties.

The library couples an arbitrary error value with an ordered trace of
call-site frames.  We embed the data model and every operation the
specification's claims mention, translated directly from the Rust source.
-/

namespace Tracerr

/-- One captured call-site frame (`src/trace.rs`, `struct Frame`):
`file: &'static str`, `line: u32`, `module: &'static str`.
`line` is a `u32`; no arithmetic is ever performed on it, so it is
modelled as `Nat` (display agrees on all `u32` values). -/
structure Frame where
  file : String
  line : Nat
  module : String
deriving Repr, DecidableEq

/-- Display form of a `Frame` (`#[display("{module}\n  at {file}:{line}")]`
in `src/trace.rs`). -/
def Frame.display (f : Frame) : String :=
  f.module ++ "\n  at " ++ f.file ++ ":" ++ toString f.line

/-- Model of Rust's `Vec<Frame>`: the element list plus the capacity of the
backing buffer.  The capacity is an allocation hint only; Rust leaves the
exact growth policy unspecified, so `push` merely keeps the invariant
`len ≤ cap`.  No observable operation of the library reads `cap`. -/
structure FVec where
  data : List Frame
  cap : Nat
deriving Repr, DecidableEq

/-- `Vec::with_capacity(c)`: empty vector with capacity `c`. -/
def FVec.with_capacity (c : Nat) : FVec :=
  { data := [], cap := c }

/-- `Vec::push`: append one element at the end, growing the buffer when
full (growth amount unspecified; only `len ≤ cap` is kept). -/
def FVec.push (v : FVec) (f : Frame) : FVec :=
  { data := v.data ++ [f], cap := max v.cap (v.data.length + 1) }

/-- `struct Trace(Vec<Frame>)` (`src/trace.rs`). -/
structure Trace where
  vec : FVec
deriving Repr, DecidableEq

/-- `Trace::new(frames)`: construct from a pre-existing vector, taking
ownership (`src/trace.rs`, `pub const fn new`). -/
def Trace.new (frames : FVec) : Trace :=
  ⟨frames⟩

/-- The frame sequence of a trace (read access through `Deref` to the
inner `Vec<Frame>`, `src/trace.rs`). -/
def Trace.frames (t : Trace) : List Frame :=
  t.vec.data

/-- `trace.push(f)`: `DerefMut` exposes the inner vector and `Vec::push`
appends at the end (`src/trace.rs`, `impl DerefMut for Trace`). -/
def Trace.push (t : Trace) (f : Frame) : Trace :=
  ⟨t.vec.push f⟩

/-- Display of a `Trace` (`impl Display for Trace`, `src/trace.rs`):
writes `"error trace:"`, then for each frame in order writes
`"\n"` followed by the frame's display.  Modelled as the same left fold
the Rust `for` loop performs over the formatter. -/
def Trace.display (t : Trace) : String :=
  t.frames.foldl (fun acc fr => acc ++ "\n" ++ fr.display) "error trace:"

/-- `struct Traced<E>` (`src/lib.rs`): the captured trace together with
the original error. -/
structure Traced (E : Type) where
  trace : Trace
  err : E
deriving Repr, DecidableEq

/-- `Traced::into_inner`: drop the trace, keep the error (`src/lib.rs`). -/
def Traced.into_inner {E : Type} (t : Traced E) : E :=
  t.err

/-- `Traced::split`: destructure into `(error, trace)` (`src/lib.rs`). -/
def Traced.split {E : Type} (t : Traced E) : E × Trace :=
  (t.err, t.trace)

/-- `Traced::compose(error, trace)` (`src/lib.rs`). -/
def Traced.compose {E : Type} (error : E) (trace : Trace) : Traced E :=
  { err := error, trace := trace }

/-- `impl<E> WrapTraced<E> for E` (`src/lib.rs`): wrap a bare value.
Allocates a new `Vec` with the capacity read from the process-wide
`DEFAULT_FRAMES_CAPACITY` atomic — passed here as the explicit argument
`capacity`, the value observed by the relaxed load — pushes the supplied
frame, and pairs the value with the new trace. -/
def wrap_traced_bare {E : Type} (capacity : Nat) (e : E) (f : Frame) :
    Traced E :=
  let trace := Trace.new (FVec.with_capacity capacity)
  let trace := trace.push f
  { err := e, trace := trace }

/-- `impl<E> WrapTraced<E> for Traced<E>` (`src/lib.rs`): push the frame
onto the existing trace, keep the inner error. -/
def wrap_traced_grow {E : Type} (t : Traced E) (f : Frame) : Traced E :=
  { t with trace := t.trace.push f }

/-- Iterated growth wrapping: apply `wrap_traced_grow` once per frame, in
list order (first element wrapped first). -/
def wrapN {E : Type} (t : Traced E) (fs : List Frame) : Traced E :=
  fs.foldl wrap_traced_grow t

/-- `pub fn map_from<F, T: From<F>>` (`src/lib.rs`): convert the inner
error through its conversion (here an explicit function `conv`),
carrying the trace across unchanged. -/
def map_from {F T : Type} (conv : F → T) (e : Traced F) : Traced T :=
  { err := conv e.err, trace := e.trace }

/-- Display of `Traced<E>` (`#[display("{err}")]` on `struct Traced`,
`src/lib.rs`): exactly the inner error's display, given the inner type's
display function. -/
def Traced.display {E : Type} (dispE : E → String) (t : Traced E) :
    String :=
  dispE t.err

/-- `impl<E: Error> Error for Traced<E>` (`src/lib.rs`): `source()`
returns `self.err.source()`.  `C` stands for the dynamic error type of
the returned cause, and `srcE` for the inner type's `source`. -/
def Traced.source {E C : Type} (srcE : E → Option C) (t : Traced E) :
    Option C :=
  srcE t.err

/-- The cause chain seen from a first cause: iterate `source` on causes,
up to `fuel` links. -/
def causeChain {C : Type} (next : C → Option C) :
    Nat → Option C → List C
  | 0, _ => []
  | _, none => []
  | fuel + 1, some c => c :: causeChain next fuel (next c)

/-- One trace-mutating transition of the system: the only operation in
the library that mutates an existing trace is `Trace.push`
(reached through `DerefMut` by the growth arm of `wrap_traced`);
`map_from`, `split` and `compose` carry the trace across unchanged. -/
inductive TraceStep : Trace → Trace → Prop
  | push (t : Trace) (f : Frame) : TraceStep t (t.push f)

/-- Observational equality of two `Traced` values: same inner error and
same frame sequence (the capacity of the backing buffer is an
allocation detail, not observable behaviour). -/
def obsEq {E : Type} (a b : Traced E) : Prop :=
  a.err = b.err ∧ a.trace.frames = b.trace.frames

/-- Spec-shaped display contract for a trace, written from the
specification's words for the refinement claim: the literal header
`"error trace:"` followed, for each frame in insertion order, by a
newline and that frame's display form. -/
def trace_display_contract (frames : List Frame) : String :=
  "error trace:" ++ String.join (frames.map fun fr => "\n" ++ fr.display)

end Tracerr

namespace Tracerr

/-- C1: wrapping a bare value with a single frame yields a `Traced` whose
trace has exactly one frame — the supplied one — and whose inner error is
the original value unchanged. -/
theorem wrap_bare_singleton {E : Type} (capacity : Nat) (e : E)
    (f : Frame) :
    (wrap_traced_bare capacity e f).trace.frames = [f] ∧
      (wrap_traced_bare capacity e f).trace.frames.length = 1 ∧
      (wrap_traced_bare capacity e f).err = e := by
  refine ⟨rfl, rfl, rfl⟩

/-- Frames after iterated growth wrapping: the new frames are appended at
the end in call order, and the inner error is untouched. -/
theorem wrapN_frames {E : Type} (t : Traced E) (fs : List Frame) :
    (wrapN t fs).trace.frames = t.trace.frames ++ fs ∧
      (wrapN t fs).err = t.err := by
  induction fs generalizing t with
  | nil => simp [wrapN]
  | cons f fs ih =>
    have h := ih (wrap_traced_grow t f)
    constructor
    · calc (wrapN t (f :: fs)).trace.frames
          = (wrap_traced_grow t f).trace.frames ++ fs := h.1
      _ = (t.trace.frames ++ [f]) ++ fs := by
            simp [wrap_traced_grow, Trace.push, FVec.push, Trace.frames]
      _ = t.trace.frames ++ (f :: fs) := by simp
    · calc (wrapN t (f :: fs)).err = (wrap_traced_grow t f).err := h.2
      _ = t.err := rfl

/-- C2: for a `Traced` value with trace length `L` and any `n ≥ 1` frames,
wrapping `n` more times yields trace length `L + n`, with the new frames
appended at the end in call order; the inner error and all previously
present frames are unchanged. -/
theorem wrap_growth_monotone {E : Type} (t : Traced E) (fs : List Frame)
    (hn : 1 ≤ fs.length) :
    (wrapN t fs).trace.frames = t.trace.frames ++ fs ∧
      (wrapN t fs).trace.frames.length
        = t.trace.frames.length + fs.length ∧
      (wrapN t fs).err = t.err := by
  obtain ⟨h1, h2⟩ := wrapN_frames t fs
  exact ⟨h1, by simp [h1], h2⟩

/-- Witness for C2 at a concrete input: two wraps on a one-frame trace. -/
theorem wrap_growth_monotone_witness :
    1 ≤ [Frame.mk "b.rs" 2 "m2", Frame.mk "c.rs" 3 "m3"].length ∧
      (wrapN
          (wrap_traced_bare 10 "boom" (Frame.mk "a.rs" 1 "m1"))
          [Frame.mk "b.rs" 2 "m2", Frame.mk "c.rs" 3 "m3"]).trace.frames
        = (wrap_traced_bare 10 "boom"
            (Frame.mk "a.rs" 1 "m1")).trace.frames
          ++ [Frame.mk "b.rs" 2 "m2", Frame.mk "c.rs" 3 "m3"] ∧
      (wrapN
          (wrap_traced_bare 10 "boom" (Frame.mk "a.rs" 1 "m1"))
          [Frame.mk "b.rs" 2 "m2", Frame.mk "c.rs" 3 "m3"]).trace.frames.length
        = (wrap_traced_bare 10 "boom"
            (Frame.mk "a.rs" 1 "m1")).trace.frames.length + 2 ∧
      (wrapN
          (wrap_traced_bare 10 "boom" (Frame.mk "a.rs" 1 "m1"))
          [Frame.mk "b.rs" 2 "m2", Frame.mk "c.rs" 3 "m3"]).err
        = "boom" := by
  refine ⟨by decide, ?_⟩
  have h := wrap_growth_monotone
    (wrap_traced_bare 10 "boom" (Frame.mk "a.rs" 1 "m1"))
    [Frame.mk "b.rs" 2 "m2", Frame.mk "c.rs" 3 "m3"] (by decide)
  exact ⟨h.1, h.2.1, h.2.2⟩


/-- C3: wrapping a bare value with `f1` and then wrapping the result with
`f2` yields the same trace as applying the growth transition with `f2` to
a `Traced` carrying only `f1` — the two-frame trace `[f1, f2]`; the
result does not depend on which wrap shape was dispatched. -/
theorem wrap_dispatch_idempotent {E : Type} (capacity c : Nat) (e : E)
    (f1 f2 : Frame) :
    (wrap_traced_grow (wrap_traced_bare capacity e f1) f2).trace.frames
        = [f1, f2] ∧
      (wrap_traced_grow (wrap_traced_bare capacity e f1) f2).trace.frames
        = (wrap_traced_grow
            (Traced.compose e (Trace.new ⟨[f1], c⟩)) f2).trace.frames ∧
      (wrap_traced_grow (wrap_traced_bare capacity e f1) f2).err = e :=
  ⟨rfl, rfl, rfl⟩

/-- C4: `map_from` converts the inner error through the given conversion
and keeps the trace identical — same length, same frame values, same
order (indeed the very same trace value). -/
theorem map_from_preserves_trace {F T : Type} (conv : F → T)
    (e : Traced F) :
    (map_from conv e).err = conv e.err ∧
      (map_from conv e).trace = e.trace ∧
      (map_from conv e).trace.frames = e.trace.frames ∧
      (map_from conv e).trace.frames.length = e.trace.frames.length :=
  ⟨rfl, rfl, rfl, rfl⟩

/-- C5: traces are append-only — along any sequence of the system's
trace-mutating transitions, the later frame sequence extends the earlier
one by a (possibly empty) suffix; no transition removes frames, reorders
them, or decreases the count. -/
theorem trace_append_only (a b : Trace)
    (h : Relation.ReflTransGen TraceStep a b) :
    (∃ s : List Frame, b.frames = a.frames ++ s) ∧
      a.frames.length ≤ b.frames.length := by
  induction h with
  | refl => exact ⟨⟨[], by simp⟩, le_refl _⟩
  | tail hab hstep ih =>
    obtain ⟨⟨s, hs⟩, hlen⟩ := ih
    cases hstep with
    | push f =>
      refine ⟨⟨s ++ [f], ?_⟩, ?_⟩
      · simp [Trace.push, FVec.push, Trace.frames] at hs ⊢
        simp [hs]
      · simp [Trace.push, FVec.push, Trace.frames] at hlen ⊢
        omega

/-- Witness for C5: one concrete push step from an empty trace. -/
theorem trace_append_only_witness :
    (∃ s : List Frame,
        ((Trace.new (FVec.with_capacity 0)).push
            (Frame.mk "a.rs" 1 "m")).frames
          = (Trace.new (FVec.with_capacity 0)).frames ++ s) ∧
      (Trace.new (FVec.with_capacity 0)).frames.length
        ≤ ((Trace.new (FVec.with_capacity 0)).push
            (Frame.mk "a.rs" 1 "m")).frames.length :=
  trace_append_only _ _
    (Relation.ReflTransGen.single
      (TraceStep.push (Trace.new (FVec.with_capacity 0))
        (Frame.mk "a.rs" 1 "m")))

/-- C6: `split` then `compose` reproduces the original `Traced` value —
same inner error and same trace (hence identical observable contents). -/
theorem split_compose_roundtrip {E : Type} (t : Traced E) :
    Traced.compose (t.split).1 (t.split).2 = t := by
  cases t
  rfl

/-- C7: the display of a `Traced` wrapper equals the inner error's
display verbatim, and does not depend on the trace at all — wrappers
around the same error with different traces display identically. -/
theorem traced_display_independent {E : Type} (dispE : E → String)
    (e : E) (tr1 tr2 : Trace) (t : Traced E) :
    Traced.display dispE t = dispE t.err ∧
      Traced.display dispE (Traced.compose e tr1)
        = Traced.display dispE (Traced.compose e tr2) :=
  ⟨rfl, rfl⟩

/-- Folding string appends from any initial string factors the initial
string out in front. -/
theorem foldl_string_append (l : List String) :
    ∀ init : String,
      l.foldl (fun a b => a ++ b) init = init ++ String.join l := by
  induction l with
  | nil =>
    intro init
    simp [String.join]
  | cons s l ih =>
    intro init
    have hj : String.join (s :: l) = s ++ String.join l := by
      have h0 := ih ("" ++ s)
      simpa [String.join, String.empty_append] using h0
    simp only [List.foldl_cons, hj]
    rw [ih (init ++ s), String.append_assoc]

/-- C8: a trace displays as the literal header `"error trace:"`
followed, for each frame in insertion order, by a newline and that
frame's display form; a frame displays as
`"{module}\n  at {file}:{line}"`; a trace built from an empty frame
sequence displays as exactly `"error trace:"`. -/
theorem trace_display_format (t : Trace) (f : Frame) (c : Nat) :
    t.display = trace_display_contract t.frames ∧
      f.display
        = f.module ++ "\n  at " ++ f.file ++ ":" ++ toString f.line ∧
      (Trace.new (FVec.with_capacity c)).display = "error trace:" := by
  refine ⟨?_, rfl, rfl⟩
  show t.frames.foldl (fun acc fr => acc ++ "\n" ++ fr.display)
      "error trace:"
    = trace_display_contract t.frames
  have key : ∀ l : List Frame, ∀ init : String,
      l.foldl (fun acc fr => acc ++ "\n" ++ fr.display) init
        = init ++ String.join (l.map fun fr => "\n" ++ fr.display) := by
    intro l
    induction l with
    | nil =>
      intro init
      simp [String.join]
    | cons a l ih =>
      intro init
      have hj : String.join (("\n" ++ a.display)
            :: l.map fun fr => "\n" ++ fr.display)
          = ("\n" ++ a.display)
            ++ String.join (l.map fun fr => "\n" ++ fr.display) := by
        have h0 := foldl_string_append
          (l.map fun fr => "\n" ++ fr.display) ("" ++ ("\n" ++ a.display))
        simpa [String.join, String.empty_append] using h0
      simp only [List.foldl_cons, List.map_cons, hj]
      rw [ih (init ++ "\n" ++ a.display)]
      simp [String.append_assoc]
  exact key t.frames "error trace:"

/-- C9: the cause query on `Traced<E>` returns exactly what the inner
error's own cause query returns, and the wrapper adds no link — the
cause chain seen from the wrapper is the cause chain seen from the inner
error, link for link. -/
theorem traced_source_delegates {E C : Type} (srcE : E → Option C)
    (next : C → Option C) (t : Traced E) (fuel : Nat) :
    Traced.source srcE t = srcE t.err ∧
      causeChain next fuel (Traced.source srcE t)
        = causeChain next fuel (srcE t.err) :=
  ⟨rfl, rfl⟩

/-- C10: the process-wide default capacity is a performance hint only —
any two capacity values (zero included) give observably identical wrap
results: same inner error, same frames in the same order; every `Nat`
capacity is accepted (the operation is total). -/
theorem capacity_noninterference {E : Type} (c1 c2 : Nat) (e : E)
    (f : Frame) :
    obsEq (wrap_traced_bare c1 e f) (wrap_traced_bare c2 e f) :=
  ⟨rfl, rfl⟩

end Tracerr
